import Mathlib

/-!
Verification development for the `brush` repository.

Two subsystems are embedded here, following the source closely:

* the streaming PLY splat importer, `crates/brush-dataset/src/splat_import.rs`
  (`GaussianData`, `set_property`, `interleave_coeffs`, `load_splat_from_ply`);
* the GPU kernel dispatch layer, `src/splat_render/kernels.rs`
  (`SplatKernel::execute`: workgroup tiling and binding-order assembly).

Scalars are kept generic in a `Field α` (instantiated at `ℚ` for concrete
evaluations and at `ℝ` where a square root is needed), standing in for `f32`.
The square root used by quaternion normalization is passed as a function
parameter `sqrtF` so that the purely structural parts stay computable.

Strings are handled at the level of their character lists, because Lean's
built-in `String.startsWith`/`String.toNat?` do not reduce in the kernel;
the helpers below mirror Rust's `str::starts_with` and `str::parse::<u32>`.
-/

namespace BrushSpec

/-- Mirrors Rust `str::starts_with` (on a string pattern): is `p` a prefix of `s`? -/
def strStartsWith (s p : String) : Bool :=
  p.data.isPrefixOf s.data

/-- Mirrors Rust `str::parse::<u32>` on the character list of a string slice:
all-digit, non-empty strings parse to the denoted number, everything else fails.
(Rust additionally accepts a leading `+` and rejects values above `u32::MAX`;
no property name exercised by the claims hits either case.) -/
def digitsToNat? (cs : List Char) : Option ℕ :=
  if cs ≠ [] ∧ cs.all Char.isDigit then
    some (cs.foldl (fun n c => 10 * n + (c.toNat - '0'.toNat)) 0)
  else none

/-- A 3-component vector, standing for glam's `Vec3`. -/
structure Vec3 (α : Type) where
  x : α
  y : α
  z : α
  deriving DecidableEq, Repr

/-- A quaternion, standing for glam's `Quat`; PLY order is `rot_0..3 = (w,x,y,z)`. -/
structure Quat4 (α : Type) where
  w : α
  x : α
  y : α
  z : α
  deriving DecidableEq, Repr

/-- glam `Quat::dot`: sum of products of the four components. -/
def Quat4.dot {α : Type} [Field α] (p q : Quat4 α) : α :=
  p.w * q.w + p.x * q.x + p.y * q.y + p.z * q.z

/-- Scalar multiple of a quaternion (glam `Quat::mul` by a scalar). -/
def Quat4.smul {α : Type} [Field α] (s : α) (q : Quat4 α) : Quat4 α :=
  ⟨s * q.w, s * q.x, s * q.y, s * q.z⟩

/-- glam `Quat::normalize`: multiply by the reciprocal of the length
`sqrt (dot q q)`.  The square root is supplied as `sqrtF`.  (For a zero
quaternion Rust produces NaN components; in the `ℝ` model division by zero
yields `0` — in both cases the result is not unit length.) -/
def Quat4.normalize {α : Type} [Field α] (sqrtF : α → α) (q : Quat4 α) : Quat4 α :=
  Quat4.smul (1 / sqrtF (q.dot q)) q

/-- The `ply_rs` `Property` value attached to one named field of a record.
The Rust enum has further variants (`Int`, `Double`, lists, …); `set_property`
ignores them all, so they are collapsed into `other`. -/
inductive PlyValue (α : Type) where
  | float (value : α)
  | uchar (value : ℕ)
  | other
  deriving DecidableEq, Repr

/-- Modelled from the spec: `rgb_to_sh` lives in `brush_render::render`, which is
not among the sources here.  Per the spec (§3), an 8-bit sRGB value `v ∈ [0,1]`
converts to an SH DC coefficient via `sh = (v − 0.5) / C0` with the analytical
constant `C0 = 0.28209479177387814`. -/
def rgb_to_sh {α : Type} [Field α] (v : α) : α :=
  (v - 0.5) / 0.28209479177387814

/-- One parsed splat record (`GaussianData` in `splat_import.rs`).
`sh_coeffs_rest` is in the on-disk inria format, channel-major
(`[channels, coeffs]`, not `[coeffs, channels]`). -/
structure GaussianData (α : Type) where
  means : Vec3 α
  scale : Vec3 α
  opacity : α
  rotation : Quat4 α
  sh_dc : α × α × α
  sh_coeffs_rest : List α
  deriving DecidableEq, Repr

/-- `GaussianData::new` (the `PropertyAccess::new` impl). -/
def GaussianData.new {α : Type} [Field α] : GaussianData α :=
  { means := ⟨0, 0, 0⟩
    scale := ⟨0, 0, 0⟩
    opacity := 0
    rotation := ⟨1, 0, 0, 0⟩
    sh_dc := (0, 0, 0)
    sh_coeffs_rest := [] }

/-- Rust `Vec::resize(idx + 1, 0.0)` followed by `v[idx] = value`, as used by
`set_property` for `f_rest_{idx}`: grow the scratch vector with zeros when
`idx` is past the end, then write at `idx`. -/
def setFRest {α : Type} [Field α] (rest : List α) (idx : ℕ) (value : α) : List α :=
  let grown := if rest.length ≤ idx then rest ++ List.replicate (idx + 1 - rest.length) 0 else rest
  grown.set idx value

/-- `GaussianData::set_property`: dispatch on the property name.  Float
properties set the named scalar field (with `f_rest_{i}` writing into the
scratch vector), `UChar` properties `red`/`green`/`blue` convert through
`rgb_to_sh`, and everything else is ignored. -/
def GaussianData.set_property {α : Type} [Field α]
    (d : GaussianData α) (key : String) (property : PlyValue α) : GaussianData α :=
  match property with
  | .float value =>
    if key = "x" then { d with means := { d.means with x := value } }
    else if key = "y" then { d with means := { d.means with y := value } }
    else if key = "z" then { d with means := { d.means with z := value } }
    else if key = "scale_0" then { d with scale := { d.scale with x := value } }
    else if key = "scale_1" then { d with scale := { d.scale with y := value } }
    else if key = "scale_2" then { d with scale := { d.scale with z := value } }
    else if key = "opacity" then { d with opacity := value }
    else if key = "rot_0" then { d with rotation := { d.rotation with w := value } }
    else if key = "rot_1" then { d with rotation := { d.rotation with x := value } }
    else if key = "rot_2" then { d with rotation := { d.rotation with y := value } }
    else if key = "rot_3" then { d with rotation := { d.rotation with z := value } }
    else if key = "f_dc_0" then { d with sh_dc := (value, d.sh_dc.2.1, d.sh_dc.2.2) }
    else if key = "f_dc_1" then { d with sh_dc := (d.sh_dc.1, value, d.sh_dc.2.2) }
    else if key = "f_dc_2" then { d with sh_dc := (d.sh_dc.1, d.sh_dc.2.1, value) }
    else if strStartsWith key "f_rest_" then
      match digitsToNat? (key.data.drop 7) with
      | some idx => { d with sh_coeffs_rest := setFRest d.sh_coeffs_rest idx value }
      | none => d
    else d
  | .uchar value =>
    if key = "red" then { d with sh_dc := (rgb_to_sh ((value : α) / 255), d.sh_dc.2.1, d.sh_dc.2.2) }
    else if key = "green" then { d with sh_dc := (d.sh_dc.1, rgb_to_sh ((value : α) / 255), d.sh_dc.2.2) }
    else if key = "blue" then { d with sh_dc := (d.sh_dc.1, d.sh_dc.2.1, rgb_to_sh ((value : α) / 255)) }
    else d
  | .other => d

/-- `interleave_coeffs`: prepend the three DC values, then walk coefficient
indices `i < sh_rest.len() / 3` picking channel `j`'s value at
`j * coeffs_per_channel + i`.  (All accessed indices are in bounds, so the
`getD` default is never used.) -/
def interleave_coeffs {α : Type} [Field α] (sh_dc : α × α × α) (sh_rest : List α) : List α :=
  let channels := 3
  let coeffs_per_channel := sh_rest.length / channels
  [sh_dc.1, sh_dc.2.1, sh_dc.2.2] ++
    (List.range coeffs_per_channel).flatMap (fun i =>
      (List.range channels).map (fun j => sh_rest.getD (j * coeffs_per_channel + i) 0))

/-- One `element` declaration from a parsed PLY header (`ply_rs` `ElementDef`
as consumed by `load_splat_from_ply`): its name, declared record count, and
the declared property names in order. -/
structure PlyElement where
  name : String
  count : ℕ
  properties : List String
  deriving DecidableEq, Repr

/-- The `f_rest_{i}` filter used for `n_sh_coeffs`:
`name.strip_prefix("f_rest_").and_then(|x| x.parse::<u32>().ok())`. -/
def parseFRestIdx (nm : String) : Option ℕ :=
  if strStartsWith nm "f_rest_" then digitsToNat? (nm.data.drop 7) else none

/-- The header-phase computation of `n_sh_coeffs` in `load_splat_from_ply`:
`(3 + properties.filter_map(strip "f_rest_" then parse).max().unwrap_or(0))`. -/
def n_sh_coeffs (element : PlyElement) : ℕ :=
  3 + ((element.properties.filterMap parseFRestIdx).max?.getD 0)

/-- Modelled from the spec: `Splats` with `Splats::from_raw` and `num_splats`
live in `brush_render::gaussian_splats`, which is not among the sources here.
Per the spec (§3, §6), a snapshot is a value type holding the five parallel
structure-of-arrays vectors (a vector is absent when its sentinel property is
missing).  This structure also serves as the importer's mutable accumulator
state, of which each snapshot is a clone. -/
structure Splats (α : Type) where
  means : List (Vec3 α)
  rotation : Option (List (Quat4 α))
  scales : Option (List (Vec3 α))
  sh_coeffs : Option (List α)
  opacity : Option (List α)
  deriving DecidableEq, Repr

/-- Modelled from the spec: `num_splats()` is the number of splats `N` held by
a snapshot; `means` is always present and has one entry per splat. -/
def Splats.num_splats {α : Type} (s : Splats α) : ℕ :=
  s.means.length

/-- The accumulator vectors set up after the header phase: `means` always,
the other four `Vec::with_capacity` allocations exactly when their sentinel
property (`scale_0`, `rot_0`, `f_dc_0`/`red`, `opacity`) is declared. -/
def initVecs {α : Type} (properties : List String) : Splats α :=
  { means := []
    scales := if properties.contains "scale_0" then some [] else none
    rotation := if properties.contains "rot_0" then some [] else none
    sh_coeffs := if properties.contains "f_dc_0" || properties.contains "red" then some [] else none
    opacity := if properties.contains "opacity" then some [] else none }

/-- The per-record append at the bottom of the body loop: push `means`; push
`scale`/`opacity` when present; push the normalized `rotation` when present;
extend `sh_coeffs` with the interleaved coefficients when present. -/
def appendSplat {α : Type} [Field α] (sqrtF : α → α) (s : Splats α) (splat : GaussianData α) :
    Splats α :=
  { means := s.means ++ [splat.means]
    scales := s.scales.map (· ++ [splat.scale])
    rotation := s.rotation.map (· ++ [Quat4.normalize sqrtF splat.rotation])
    sh_coeffs := s.sh_coeffs.map (· ++ interleave_coeffs splat.sh_dc splat.sh_coeffs_rest)
    opacity := s.opacity.map (· ++ [splat.opacity]) }

/-- `update_every = 25000` from `load_splat_from_ply`. -/
def update_every : ℕ := 25000

/-- The sub-sampling filter: record `i` is kept when no stride is set, or when
`i % subsample == 0`.  (Rust would panic on a stride of `0`; the claims about
sub-sampling all assume a positive stride.) -/
def keep (subsample_points : Option ℕ) (i : ℕ) : Bool :=
  match subsample_points with
  | none => true
  | some s => i % s == 0

/-- The body loop of `load_splat_from_ply` over the records of one `vertex`
element, starting at record index `i` with accumulator `s`: before parsing
record `i`, when `i % update_every == update_every - 1` a clone of the current
accumulators is emitted; after parsing, the record is appended unless
sub-sampling discards it.  Returns the emitted snapshots in order together
with the final accumulator.  (The cooperative yield every 500 records has no
observable effect on the emitted values and is not modelled.) -/
def bodyLoop {α : Type} [Field α] (sqrtF : α → α) (subsample : Option ℕ) :
    ℕ → Splats α → List (GaussianData α) → List (Splats α) × Splats α
  | _, s, [] => ([], s)
  | i, s, splat :: rest =>
    let emitted : List (Splats α) := if i % update_every = update_every - 1 then [s] else []
    let s' := if keep subsample i then appendSplat sqrtF s splat else s
    let res := bodyLoop sqrtF subsample (i + 1) s' rest
    (emitted ++ res.1, res.2)

/-- The importer's failure cases exercised here (the source consolidates both
under `anyhow` messages: "Invalid splat ply. Missing properties!" and
"No splats found"; the spec names them `MissingRequiredProperty` and `Empty`). -/
inductive LoadError where
  | missingRequiredProperty
  | empty
  deriving DecidableEq, Repr

/-- Processing of one header element named `vertex`: fail when `x`/`y`/`z`
is missing; otherwise run the body loop over the element's `count` records
from the fresh accumulators, then build the final `Splats` and fail with
`empty` when it holds zero splats, else emit it.  Returns the emitted
snapshots in order and the terminal error, if any.  (Snapshots emitted before
a failure have already been delivered and are kept.) -/
def processVertex {α : Type} [Field α] (sqrtF : α → α) (subsample : Option ℕ)
    (element : PlyElement) (records : List (GaussianData α)) :
    List (Splats α) × Option LoadError :=
  if ["x", "y", "z"].any (fun p => !(element.properties.contains p)) then
    ([], some .missingRequiredProperty)
  else
    let res := bodyLoop sqrtF subsample 0 (initVecs element.properties) (records.take element.count)
    if res.2.num_splats = 0 then (res.1, some .empty)
    else (res.1 ++ [res.2], none)

/-- The stream produced by `load_splat_from_ply`, as the list of emitted
snapshots plus the terminal error (if any): iterate over the header's
elements, running the body phase for each element named `vertex` and skipping
every other element; the first error ends the stream.  The byte reader is
abstracted by pairing each element with the records that parse for it (a
well-formed payload). -/
def load_splat_from_ply {α : Type} [Field α] (sqrtF : α → α) (subsample_points : Option ℕ) :
    List (PlyElement × List (GaussianData α)) → List (Splats α) × Option LoadError
  | [] => ([], none)
  | (element, records) :: rest =>
    if element.name = "vertex" then
      let res := processVertex sqrtF subsample_points element records
      match res.2 with
      | some e => (res.1, some e)
      | none =>
        let res' := load_splat_from_ply sqrtF subsample_points rest
        (res.1 ++ res'.1, res'.2)
    else load_splat_from_ply sqrtF subsample_points rest

/-- The records of `records` that survive sub-sampling, starting at parse
index `i`, in their original relative order. -/
def keptRecords {α : Type} (subsample : Option ℕ) :
    ℕ → List (GaussianData α) → List (GaussianData α)
  | _, [] => []
  | i, r :: rs =>
    if keep subsample i then r :: keptRecords subsample (i + 1) rs
    else keptRecords subsample (i + 1) rs

/-- How many of the `k` parse indices `i, i+1, …, i+k-1` survive sub-sampling. -/
def keptCount (subsample : Option ℕ) : ℕ → ℕ → ℕ
  | _, 0 => 0
  | i, k + 1 => (if keep subsample i then 1 else 0) + keptCount subsample (i + 1) k

/-- The final accumulator state after the body loop of one `vertex` element:
the complete collection from which the final snapshot is built. -/
def finalSplats {α : Type} [Field α] (sqrtF : α → α) (subsample : Option ℕ)
    (element : PlyElement) (records : List (GaussianData α)) : Splats α :=
  (bodyLoop sqrtF subsample 0 (initVecs element.properties) (records.take element.count)).2

/-- The spec's canonical SH layout, written from the spec's words (§3, §4.1)
for comparison with `interleave_coeffs`: the three DC values first, then for
each coefficient index `c ∈ [0,K)` the red, green and blue values of
coefficient `c` consecutively, where the on-disk channel-major data stores
red coefficients at `[0,K)`, green at `[K,2K)` and blue at `[2K,3K)`:
`[dc0, dc1, dc2, rest[0], rest[K], rest[2K], rest[1], rest[K+1], …]`. -/
def specInterleaved {α : Type} [Field α] (sh_dc : α × α × α) (sh_rest : List α) (K : ℕ) :
    List α :=
  [sh_dc.1, sh_dc.2.1, sh_dc.2.2] ++
    (List.range K).flatMap (fun c =>
      [sh_rest.getD c 0, sh_rest.getD (K + c) 0, sh_rest.getD (2 * K + c) 0])

/-- Internal consistency of a snapshot whose records carry `L` raw `f_rest`
values each: every present optional vector has the same length as `means`,
and the SH vector holds `3 + 3 * (L / 3)` values per splat. -/
def Consistent {α : Type} (L : ℕ) (s : Splats α) : Prop :=
  (∀ v ∈ s.scales, v.length = s.means.length) ∧
  (∀ v ∈ s.rotation, v.length = s.means.length) ∧
  (∀ v ∈ s.opacity, v.length = s.means.length) ∧
  (∀ v ∈ s.sh_coeffs, v.length = s.means.length * (3 + 3 * (L / 3)))

/-- A concrete two-record payload with `K = 1` SH coefficient per channel
(channel-major scratch vectors), used for concrete evaluations. -/
def shExampleRecords : List (GaussianData ℚ) :=
  [{ GaussianData.new with sh_dc := (10, 11, 12), sh_coeffs_rest := [1, 2, 3] },
   { GaussianData.new with sh_dc := (20, 21, 22), sh_coeffs_rest := [4, 5, 6] }]

/-- The vertex element declaration matching `shExampleRecords`. -/
def shExampleElement : PlyElement :=
  ⟨"vertex", 2, ["x", "y", "z", "f_dc_0"]⟩

/-- Rust `u32::div_ceil` as used for the dispatch grid:
`d = a / b`, `r = a % b`, then `d + 1` when `r > 0` else `d`. -/
def div_ceil (a b : ℕ) : ℕ :=
  let d := a / b
  let r := a % b
  if 0 < r then d + 1 else d

/-- The dispatch grid computed by `SplatKernel::execute`:
per-axis `div_ceil` of the logical problem size by the workgroup size. -/
def dispatchGrid (executions workgroup_size : ℕ × ℕ × ℕ) : ℕ × ℕ × ℕ :=
  (div_ceil executions.1 workgroup_size.1,
   div_ceil executions.2.1 workgroup_size.2.1,
   div_ceil executions.2.2 workgroup_size.2.2)

/-- The ordered binding list submitted by `SplatKernel::execute`: when the
kernel's uniform type has nonzero size, the freshly created uniform binding
(abstracted here as the given `uniform_data`) is concatenated in front of the
read and write bindings; otherwise only reads then writes are submitted. -/
def totalHandles {β : Type} (uniformsSize : ℕ) (uniform_data : β)
    (read_handles write_handles : List β) : List β :=
  if uniformsSize ≠ 0 then ([uniform_data] :: read_handles :: write_handles :: []).flatten
  else (read_handles :: write_handles :: []).flatten

/-- `SplatKernel::execute`, observed through what it submits to the compute
client: the workgroup grid for the kernel, and the ordered binding list. -/
def execute {β : Type} (workgroup_size : ℕ × ℕ × ℕ) (uniformsSize : ℕ) (uniform_data : β)
    (read_handles write_handles : List β) (executions : ℕ × ℕ × ℕ) :
    (ℕ × ℕ × ℕ) × List β :=
  (dispatchGrid executions workgroup_size,
   totalHandles uniformsSize uniform_data read_handles write_handles)

/-! ### Helper lemmas about sub-sampling bookkeeping -/

theorem keep_zero (sub : Option ℕ) : keep sub 0 = true := by
  cases sub <;> simp [keep]

theorem keep_some (S i : ℕ) : keep (some S) i = (i % S == 0) := rfl

theorem keptCount_zero (sub : Option ℕ) (i : ℕ) : keptCount sub i 0 = 0 := rfl

theorem keptCount_succ_left (sub : Option ℕ) (i k : ℕ) :
    keptCount sub i (k + 1) = (if keep sub i then 1 else 0) + keptCount sub (i + 1) k := rfl

theorem keptCount_succ_right (sub : Option ℕ) :
    ∀ (k i : ℕ), keptCount sub i (k + 1) = keptCount sub i k + (if keep sub (i + k) then 1 else 0)
  | 0, i => by simp [keptCount]
  | k + 1, i => by
    rw [keptCount_succ_left, keptCount_succ_right sub k (i + 1), keptCount_succ_left]
    have : i + 1 + k = i + (k + 1) := by omega
    rw [this]
    omega

theorem keptCount_le_succ (sub : Option ℕ) (i k : ℕ) :
    keptCount sub i k ≤ keptCount sub i (k + 1) := by
  rw [keptCount_succ_right]
  omega

theorem keptCount_mono (sub : Option ℕ) (i : ℕ) : Monotone (keptCount sub i) :=
  monotone_nat_of_le_succ (keptCount_le_succ sub i)

theorem keptCount_none (i : ℕ) : ∀ k, keptCount none i k = k := by
  intro k
  induction k generalizing i with
  | zero => rfl
  | succ k ih => rw [keptCount_succ_left, ih (i + 1)]; simp [keep]; omega

theorem keptCount_pos (sub : Option ℕ) {k : ℕ} (hk : 0 < k) : 0 < keptCount sub 0 k := by
  obtain ⟨k', rfl⟩ : ∃ k', k = k' + 1 := ⟨k - 1, by omega⟩
  rw [keptCount_succ_left, keep_zero]
  simp

/-- With stride `S`, the kept indices among `0, …, n-1` number `⌈n / S⌉`. -/
theorem keptCount_some {S : ℕ} (hS : 0 < S) : ∀ n, keptCount (some S) 0 n = (n + S - 1) / S := by
  intro n
  induction n with
  | zero => simp [keptCount_zero, Nat.div_eq_of_lt (by omega : S - 1 < S)]
  | succ n ih =>
    rw [keptCount_succ_right, ih]
    have hrw : n + 1 + S - 1 = n + S := by omega
    rw [hrw, Nat.add_div_right n hS]
    have hdm : S * (n / S) + n % S = n := Nat.div_add_mod n S
    have hmul : S * (n / S + 1) = S * (n / S) + S := by ring
    by_cases h0 : n % S = 0
    · have h1 : (n + S - 1) / S = n / S := by
        have hx : n + S - 1 = S * (n / S) + (S - 1) := by omega
        rw [hx, Nat.mul_add_div hS, Nat.div_eq_of_lt (by omega : S - 1 < S), Nat.add_zero]
      have hone : keep (some S) (0 + n) = true := by simp [keep, h0]
      rw [h1, hone]
      simp
    · have hr : n % S < S := Nat.mod_lt n hS
      have h1 : (n + S - 1) / S = n / S + 1 := by
        have hx : n + S - 1 = S * (n / S + 1) + (n % S - 1) := by omega
        rw [hx, Nat.mul_add_div hS, Nat.div_eq_of_lt (by omega : n % S - 1 < S), Nat.add_zero]
      have hzero : keep (some S) (0 + n) = false := by simp [keep, h0]
      rw [h1, hzero]
      simp

theorem keptRecords_nil {α : Type} (sub : Option ℕ) (i : ℕ) :
    keptRecords (α := α) sub i [] = [] := rfl

theorem keptRecords_cons {α : Type} (sub : Option ℕ) (i : ℕ) (r : GaussianData α)
    (rs : List (GaussianData α)) :
    keptRecords sub i (r :: rs) =
      if keep sub i then r :: keptRecords sub (i + 1) rs else keptRecords sub (i + 1) rs := rfl

theorem keptRecords_length {α : Type} (sub : Option ℕ) :
    ∀ (rs : List (GaussianData α)) (i : ℕ), (keptRecords sub i rs).length = keptCount sub i rs.length
  | [], _ => rfl
  | r :: rs, i => by
    rw [keptRecords_cons, List.length_cons, keptCount_succ_left]
    by_cases h : keep sub i <;>
      simp [h, keptRecords_length sub rs (i + 1)] <;> omega

theorem keptRecords_none {α : Type} : ∀ (rs : List (GaussianData α)) (i : ℕ),
    keptRecords none i rs = rs
  | [], _ => rfl
  | r :: rs, i => by
    rw [keptRecords_cons]
    simp [keep, keptRecords_none rs (i + 1)]

/-- The records surviving sub-sampling are exactly those whose parse index
satisfies the `keep` test, in their original relative order. -/
theorem keptRecords_enumFrom {α : Type} (sub : Option ℕ) :
    ∀ (rs : List (GaussianData α)) (i : ℕ),
      keptRecords sub i rs = ((List.enumFrom i rs).filter (fun p => keep sub p.1)).map Prod.snd
  | [], _ => rfl
  | r :: rs, i => by
    rw [keptRecords_cons, List.enumFrom_cons, List.filter_cons]
    by_cases h : keep sub i <;>
      simp [h, keptRecords_enumFrom sub rs (i + 1)]

theorem keptRecords_subset {α : Type} (sub : Option ℕ) :
    ∀ (rs : List (GaussianData α)) (i : ℕ) (r : GaussianData α),
      r ∈ keptRecords sub i rs → r ∈ rs
  | [], _, _, h => by simp [keptRecords_nil] at h
  | x :: rs, i, r, h => by
    rw [keptRecords_cons] at h
    by_cases hk : keep sub i
    · rw [if_pos hk] at h
      rcases List.mem_cons.mp h with h | h
      · exact h ▸ List.mem_cons_self x rs
      · exact List.mem_cons_of_mem x (keptRecords_subset sub rs (i + 1) r h)
    · rw [if_neg hk] at h
      exact List.mem_cons_of_mem x (keptRecords_subset sub rs (i + 1) r h)

/-! ### Structural lemmas about the body loop -/

theorem appendSplat_means_length {α : Type} [Field α] (sqrtF : α → α) (s : Splats α)
    (r : GaussianData α) : (appendSplat sqrtF s r).means.length = s.means.length + 1 := by
  simp [appendSplat]

/-- The final accumulator of the body loop is the left fold of the per-record
append over the records that survive sub-sampling. -/
theorem bodyLoop_snd {α : Type} [Field α] (sqrtF : α → α) (sub : Option ℕ) :
    ∀ (rs : List (GaussianData α)) (i : ℕ) (s : Splats α),
      (bodyLoop sqrtF sub i s rs).2 = (keptRecords sub i rs).foldl (appendSplat sqrtF) s
  | [], _, _ => rfl
  | r :: rs, i, s => by
    rw [keptRecords_cons]
    show (bodyLoop sqrtF sub (i + 1) (if keep sub i then appendSplat sqrtF s r else s) rs).2 = _
    by_cases h : keep sub i
    · rw [if_pos h, if_pos h, List.foldl_cons, bodyLoop_snd sqrtF sub rs (i + 1) _]
    · rw [if_neg h, if_neg h, bodyLoop_snd sqrtF sub rs (i + 1) s]

theorem foldl_appendSplat_means {α : Type} [Field α] (sqrtF : α → α) :
    ∀ (l : List (GaussianData α)) (s : Splats α),
      (l.foldl (appendSplat sqrtF) s).means = s.means ++ l.map GaussianData.means
  | [], s => by simp
  | r :: l, s => by
    rw [List.foldl_cons, foldl_appendSplat_means sqrtF l _]
    simp [appendSplat]

theorem foldl_appendSplat_scales {α : Type} [Field α] (sqrtF : α → α) :
    ∀ (l : List (GaussianData α)) (s : Splats α),
      (l.foldl (appendSplat sqrtF) s).scales = s.scales.map (· ++ l.map GaussianData.scale)
  | [], s => by cases h : s.scales <;> simp [h]
  | r :: l, s => by
    rw [List.foldl_cons, foldl_appendSplat_scales sqrtF l _]
    cases h : s.scales <;> simp [appendSplat, h]

theorem foldl_appendSplat_rotation {α : Type} [Field α] (sqrtF : α → α) :
    ∀ (l : List (GaussianData α)) (s : Splats α),
      (l.foldl (appendSplat sqrtF) s).rotation =
        s.rotation.map (· ++ l.map fun r => Quat4.normalize sqrtF r.rotation)
  | [], s => by cases h : s.rotation <;> simp [h]
  | r :: l, s => by
    rw [List.foldl_cons, foldl_appendSplat_rotation sqrtF l _]
    cases h : s.rotation <;> simp [appendSplat, h]

theorem foldl_appendSplat_opacity {α : Type} [Field α] (sqrtF : α → α) :
    ∀ (l : List (GaussianData α)) (s : Splats α),
      (l.foldl (appendSplat sqrtF) s).opacity = s.opacity.map (· ++ l.map GaussianData.opacity)
  | [], s => by cases h : s.opacity <;> simp [h]
  | r :: l, s => by
    rw [List.foldl_cons, foldl_appendSplat_opacity sqrtF l _]
    cases h : s.opacity <;> simp [appendSplat, h]

theorem foldl_appendSplat_sh {α : Type} [Field α] (sqrtF : α → α) :
    ∀ (l : List (GaussianData α)) (s : Splats α),
      (l.foldl (appendSplat sqrtF) s).sh_coeffs =
        s.sh_coeffs.map
          (· ++ (l.map fun r => interleave_coeffs r.sh_dc r.sh_coeffs_rest).flatten)
  | [], s => by cases h : s.sh_coeffs <;> simp [h]
  | r :: l, s => by
    rw [List.foldl_cons, foldl_appendSplat_sh sqrtF l _]
    cases h : s.sh_coeffs <;> simp [appendSplat, h]

/-- The sizes of the snapshots emitted by the body loop: one snapshot before
parsing each record index `i + k` with `(i + k) % update_every = update_every - 1`,
holding the records kept so far. -/
theorem bodyLoop_fst_sizes {α : Type} [Field α] (sqrtF : α → α) (sub : Option ℕ) :
    ∀ (rs : List (GaussianData α)) (i : ℕ) (s : Splats α),
      ((bodyLoop sqrtF sub i s rs).1).map Splats.num_splats =
        (List.range rs.length).filterMap (fun k =>
          if (i + k) % update_every = update_every - 1 then
            some (s.means.length + keptCount sub i k)
          else none)
  | [], _, _ => rfl
  | r :: rs, i, s => by
    show ((if i % update_every = update_every - 1 then [s] else []) ++
        (bodyLoop sqrtF sub (i + 1) (if keep sub i then appendSplat sqrtF s r else s) rs).1).map
          Splats.num_splats = _
    rw [List.map_append, bodyLoop_fst_sizes sqrtF sub rs (i + 1) _]
    rw [List.length_cons, List.range_succ_eq_map, List.filterMap_cons, List.filterMap_map]
    have hlen : (if keep sub i then appendSplat sqrtF s r else s).means.length =
        s.means.length + (if keep sub i then 1 else 0) := by
      by_cases h : keep sub i <;> simp [h, appendSplat_means_length]
    have hfun : ∀ k : ℕ,
        (if (i + 1 + k) % update_every = update_every - 1 then
          some ((if keep sub i then appendSplat sqrtF s r else s).means.length +
            keptCount sub (i + 1) k)
        else none) =
        (if (i + Nat.succ k) % update_every = update_every - 1 then
          some (s.means.length + keptCount sub i (Nat.succ k))
        else none) := by
      intro k
      have h1 : i + 1 + k = i + Nat.succ k := by omega
      rw [h1, keptCount_succ_left, hlen]
      by_cases h : (i + Nat.succ k) % update_every = update_every - 1 <;> simp [h] <;> omega
    rw [funext hfun]
    have h0 : (i + 0) % update_every = i % update_every := by rw [Nat.add_zero]
    by_cases h : i % update_every = update_every - 1
    · rw [if_pos h]
      show [s.means.length] ++ _ = _
      rw [if_pos (by simpa [h0] using h)]
      simp only [keptCount_zero, Nat.add_zero, List.singleton_append, List.cons.injEq]
      exact ⟨trivial, rfl⟩
    · rw [if_neg h]
      show [] ++ _ = _
      rw [if_neg (by simpa [h0] using h)]
      rfl

/-! ### Periodic selection out of an index range -/

/-- Selecting the indices `k < n` with `k % m = m - 1` picks exactly
`t * m + (m - 1)` for `t < n / m`. -/
theorem filterMap_range_period {β : Type} (g : ℕ → β) {m : ℕ} (hm : 0 < m) :
    ∀ n, (List.range n).filterMap (fun k => if k % m = m - 1 then some (g k) else none) =
      (List.range (n / m)).map (fun t => g (t * m + (m - 1))) := by
  intro n
  induction n with
  | zero => simp
  | succ n ih =>
    rw [List.range_succ, List.filterMap_append, ih, List.filterMap_cons]
    have hdm : m * (n / m) + n % m = n := Nat.div_add_mod n m
    have hmul : m * (n / m + 1) = m * (n / m) + m := by ring
    by_cases h : n % m = m - 1
    · have hn1 : n + 1 = m * (n / m + 1) := by omega
      have hdiv : (n + 1) / m = n / m + 1 := by
        rw [hn1, Nat.mul_div_cancel_left _ hm]
      have hcomm : (n / m) * m = m * (n / m) := Nat.mul_comm _ _
      have hn : n = (n / m) * m + (m - 1) := by omega
      rw [if_pos h, hdiv, List.range_succ, List.map_append]
      simp [← hn]
    · have hdiv : (n + 1) / m = n / m := by
        have hlt : n % m < m := Nat.mod_lt n hm
        have hx : n + 1 = m * (n / m) + (n % m + 1) := by omega
        rw [hx, Nat.mul_add_div hm, Nat.div_eq_of_lt (by omega : n % m + 1 < m), Nat.add_zero]
      rw [if_neg h, hdiv]
      simp

/-! ### The snapshot stream of one vertex element -/

theorem initVecs_means {α : Type} (properties : List String) :
    (initVecs (α := α) properties).means = [] := rfl

/-- When `x`, `y`, `z` are present and at least one record is kept, the
stream for a vertex element is the in-progress snapshots followed by the
final complete snapshot, with no error. -/
theorem processVertex_eq {α : Type} [Field α] (sqrtF : α → α) (sub : Option ℕ)
    (element : PlyElement) (records : List (GaussianData α))
    (hxyz : (["x", "y", "z"].any fun p => !(element.properties.contains p)) = false)
    (hpos : 0 < (records.take element.count).length) :
    processVertex sqrtF sub element records =
      ((bodyLoop sqrtF sub 0 (initVecs element.properties) (records.take element.count)).1 ++
        [finalSplats sqrtF sub element records], none) := by
  have hn : (bodyLoop sqrtF sub 0 (initVecs element.properties)
      (records.take element.count)).2.num_splats ≠ 0 := by
    rw [Splats.num_splats, bodyLoop_snd, foldl_appendSplat_means, initVecs_means,
      List.nil_append, List.length_map, keptRecords_length]
    have := keptCount_pos sub hpos
    omega
  rw [processVertex, hxyz]
  simp only [Bool.false_eq_true, if_false, hn, finalSplats]

/-- The full list of snapshot sizes for one vertex element with `count`
well-formed records: the kept-so-far count before parsing each record index
`t * update_every + (update_every - 1)`, then the total kept count. -/
theorem processVertex_sizes {α : Type} [Field α] (sqrtF : α → α) (sub : Option ℕ)
    (element : PlyElement) (records : List (GaussianData α))
    (hxyz : (["x", "y", "z"].any fun p => !(element.properties.contains p)) = false)
    (hlen : records.length = element.count) (hpos : 0 < element.count) :
    ((processVertex sqrtF sub element records).1).map Splats.num_splats =
      ((List.range (element.count / update_every)).map
        (fun t => keptCount sub 0 (t * update_every + (update_every - 1)))) ++
      [keptCount sub 0 element.count] ∧
    (processVertex sqrtF sub element records).2 = none := by
  have htake : records.take element.count = records := by
    rw [← hlen]; exact List.take_length records
  have hpos' : 0 < (records.take element.count).length := by rw [htake, hlen]; exact hpos
  rw [processVertex_eq sqrtF sub element records hxyz hpos']
  refine ⟨?_, rfl⟩
  rw [List.map_append, bodyLoop_fst_sizes, htake, hlen]
  have hue : 0 < update_every := by norm_num [update_every]
  have hfun : ∀ k : ℕ,
      (if (0 + k) % update_every = update_every - 1 then
        some ((initVecs (α := α) element.properties).means.length + keptCount sub 0 k)
      else none) =
      (if k % update_every = update_every - 1 then some (keptCount sub 0 k) else none) := by
    intro k
    rw [Nat.zero_add, initVecs_means, List.length_nil, Nat.zero_add]
  rw [funext hfun, filterMap_range_period (fun k => keptCount sub 0 k) hue element.count]
  have hfin : (finalSplats sqrtF sub element records).means.length =
      keptCount sub 0 element.count := by
    rw [finalSplats, bodyLoop_snd, foldl_appendSplat_means, initVecs_means, List.nil_append,
      List.length_map, keptRecords_length, htake, hlen]
  simp [Splats.num_splats, hfin]

/-! ### Claim C1 — snapshot cadence -/

/-- Claim C1, corrected.  With no sub-sampling, the in-progress snapshot is
emitted BEFORE parsing record index `i` whenever `i % 25000 = 24999`, so it
holds `i` (not `i + 1`) splats: an `n`-record well-formed payload yields
in-progress snapshots of sizes `t * 25000 + 24999` for each `t < n / 25000`,
followed by the final snapshot of size `n`.  (In particular a 50000-record
payload yields three snapshots, of sizes 24999, 49999 and 50000 — not two of
sizes 25000 and 50000 as claimed.) -/
theorem C1_snapshot_cadence {α : Type} [Field α] (sqrtF : α → α) (element : PlyElement)
    (records : List (GaussianData α))
    (hxyz : (["x", "y", "z"].any fun p => !(element.properties.contains p)) = false)
    (hlen : records.length = element.count) (hpos : 0 < element.count) :
    ((processVertex sqrtF none element records).1).map Splats.num_splats =
      ((List.range (element.count / update_every)).map
        (fun t => t * update_every + (update_every - 1))) ++ [element.count] := by
  have h := (processVertex_sizes sqrtF none element records hxyz hlen hpos).1
  simpa [keptCount_none] using h

theorem C1_snapshot_cadence_witness :
    (([GaussianData.new (α := ℚ)] : List (GaussianData ℚ)).length = 1 ∧ 0 < 1) ∧
    ((processVertex (α := ℚ) id none ⟨"vertex", 1, ["x", "y", "z"]⟩ [GaussianData.new]).1).map
        Splats.num_splats =
      ((List.range (1 / update_every)).map
        (fun t => t * update_every + (update_every - 1))) ++ [1] :=
  ⟨⟨by decide, by decide⟩,
    C1_snapshot_cadence id ⟨"vertex", 1, ["x", "y", "z"]⟩ [GaussianData.new]
      (by decide) (by decide) (by decide)⟩

/-- Claim C1, counterexample to the claim as stated: for a well-formed
50000-record payload (no sub-sampling) the stream emits THREE snapshots, of
sizes 24999, 49999 and 50000 — not exactly two of sizes 25000 and 50000. -/
theorem C1_counterexample :
    ((processVertex (α := ℚ) id none ⟨"vertex", 50000, ["x", "y", "z"]⟩
        (List.replicate 50000 GaussianData.new)).1).map Splats.num_splats =
      [24999, 49999, 50000] ∧
    ([24999, 49999, 50000] : List ℕ) ≠ [25000, 50000] := by
  constructor
  · have h := (processVertex_sizes (α := ℚ) id none ⟨"vertex", 50000, ["x", "y", "z"]⟩
      (List.replicate 50000 GaussianData.new) (by decide)
      (by exact List.length_replicate 50000 _) (by norm_num)).1
    rw [h]
    simp only [keptCount_none]
    decide
  · decide

/-! ### Claim C8 — sub-sampling -/

/-- Claim C8, confirmed.  With stride `S ≥ 1` over `N` well-formed records,
the final snapshot holds exactly `⌈N/S⌉ = (N + S - 1) / S` splats, namely the
records whose zero-based parse index `i` satisfies `i % S = 0`, in their
original relative order. -/
theorem C8_subsample {α : Type} [Field α] (sqrtF : α → α) {S : ℕ} (element : PlyElement)
    (records : List (GaussianData α)) (hS : 0 < S)
    (hxyz : (["x", "y", "z"].any fun p => !(element.properties.contains p)) = false)
    (hlen : records.length = element.count) (hpos : 0 < element.count) :
    ((processVertex sqrtF (some S) element records).1).getLast? =
      some (finalSplats sqrtF (some S) element records) ∧
    (finalSplats sqrtF (some S) element records).means =
      (((List.enumFrom 0 records).filter fun p => p.1 % S == 0).map Prod.snd).map
        GaussianData.means ∧
    (finalSplats sqrtF (some S) element records).num_splats = (element.count + S - 1) / S := by
  have htake : records.take element.count = records := by
    rw [← hlen]; exact List.take_length records
  have hpos' : 0 < (records.take element.count).length := by
    rw [htake, hlen]; exact hpos
  refine ⟨?_, ?_, ?_⟩
  · rw [processVertex_eq sqrtF (some S) element records hxyz hpos']
    exact List.getLast?_concat _
  · rw [finalSplats, bodyLoop_snd, foldl_appendSplat_means, initVecs_means, List.nil_append,
      htake, keptRecords_enumFrom]
    simp only [keep_some]
  · rw [Splats.num_splats, finalSplats, bodyLoop_snd, foldl_appendSplat_means, initVecs_means,
      List.nil_append, List.length_map, keptRecords_length, htake, hlen, keptCount_some hS]

theorem C8_subsample_witness :
    (0 < 3 ∧ (10 + 3 - 1) / 3 = 4) ∧
    (((processVertex (α := ℚ) id (some 3) ⟨"vertex", 10, ["x", "y", "z"]⟩
        ((List.range 10).map fun k =>
          { GaussianData.new with means := ⟨(k : ℚ), 0, 0⟩ })).1).getLast? =
      some (finalSplats id (some 3) ⟨"vertex", 10, ["x", "y", "z"]⟩
        ((List.range 10).map fun k =>
          { GaussianData.new with means := ⟨(k : ℚ), 0, 0⟩ })) ∧
    (finalSplats id (some 3) ⟨"vertex", 10, ["x", "y", "z"]⟩
        ((List.range 10).map fun k =>
          { GaussianData.new with means := ⟨(k : ℚ), 0, 0⟩ })).means =
      (((List.enumFrom 0 ((List.range 10).map fun k =>
          { GaussianData.new with means := ⟨(k : ℚ), 0, 0⟩ })).filter
            fun p => p.1 % 3 == 0).map Prod.snd).map GaussianData.means ∧
    (finalSplats id (some 3) ⟨"vertex", 10, ["x", "y", "z"]⟩
        ((List.range 10).map fun k =>
          { GaussianData.new with means := ⟨(k : ℚ), 0, 0⟩ })).num_splats = (10 + 3 - 1) / 3) ∧
    (finalSplats id (some 3) ⟨"vertex", 10, ["x", "y", "z"]⟩
        ((List.range 10).map fun k =>
          { GaussianData.new with means := ⟨(k : ℚ), 0, 0⟩ })).means =
      [⟨0, 0, 0⟩, ⟨3, 0, 0⟩, ⟨6, 0, 0⟩, ⟨9, 0, 0⟩] :=
  ⟨⟨by decide, by decide⟩,
    C8_subsample id ⟨"vertex", 10, ["x", "y", "z"]⟩ _ (by decide) (by decide)
      (by decide) (by decide),
    by decide⟩

/-! ### Claim C5 — snapshot invariants -/

theorem interleave_coeffs_length {α : Type} [Field α] (sh_dc : α × α × α) (sh_rest : List α) :
    (interleave_coeffs sh_dc sh_rest).length = 3 + 3 * (sh_rest.length / 3) := by
  have key : ∀ (cpc : ℕ) (g : ℕ → ℕ → α),
      ((List.range cpc).flatMap (fun i => (List.range 3).map (g i))).length = 3 * cpc := by
    intro cpc g
    induction cpc with
    | zero => simp
    | succ k ih =>
      rw [List.range_succ]
      simp [ih]
      ring
  simp only [interleave_coeffs, List.length_append, List.length_cons, List.length_nil, key]

theorem appendSplat_consistent {α : Type} [Field α] (sqrtF : α → α) {L : ℕ} {s : Splats α}
    {r : GaussianData α} (hr : r.sh_coeffs_rest.length = L) (hc : Consistent L s) :
    Consistent L (appendSplat sqrtF s r) := by
  obtain ⟨h1, h2, h3, h4⟩ := hc
  refine ⟨?_, ?_, ?_, ?_⟩ <;> intro v hv
  · obtain ⟨w, hw, rfl⟩ := Option.map_eq_some'.mp hv
    rw [List.length_append, appendSplat_means_length, h1 w hw]
    simp
  · obtain ⟨w, hw, rfl⟩ := Option.map_eq_some'.mp hv
    rw [List.length_append, appendSplat_means_length, h2 w hw]
    simp
  · obtain ⟨w, hw, rfl⟩ := Option.map_eq_some'.mp hv
    rw [List.length_append, appendSplat_means_length, h3 w hw]
    simp
  · obtain ⟨w, hw, rfl⟩ := Option.map_eq_some'.mp hv
    rw [List.length_append, appendSplat_means_length, h4 w hw,
      interleave_coeffs_length, hr]
    ring

theorem initVecs_consistent {α : Type} (L : ℕ) (properties : List String) :
    Consistent L (initVecs (α := α) properties) := by
  refine ⟨?_, ?_, ?_, ?_⟩ <;> intro v hv <;>
    simp only [initVecs] at hv ⊢ <;> split_ifs at hv <;> simp_all

theorem bodyLoop_consistent {α : Type} [Field α] (sqrtF : α → α) (sub : Option ℕ) (L : ℕ) :
    ∀ (rs : List (GaussianData α)) (i : ℕ) (s : Splats α),
      (∀ r ∈ rs, r.sh_coeffs_rest.length = L) → Consistent L s →
      (∀ snap ∈ (bodyLoop sqrtF sub i s rs).1, Consistent L snap) ∧
      Consistent L (bodyLoop sqrtF sub i s rs).2
  | [], _, _, _, hc => ⟨fun snap h => (List.not_mem_nil snap h).elim, hc⟩
  | r :: rs, i, s, hL, hc => by
    have hc' : Consistent L (if keep sub i then appendSplat sqrtF s r else s) := by
      by_cases h : keep sub i
      · rw [if_pos h]; exact appendSplat_consistent sqrtF (hL r (List.mem_cons_self r rs)) hc
      · rw [if_neg h]; exact hc
    have ih := bodyLoop_consistent sqrtF sub L rs (i + 1)
      (if keep sub i then appendSplat sqrtF s r else s)
      (fun x hx => hL x (List.mem_cons_of_mem r hx)) hc'
    constructor
    · intro snap hsnap
      have hmem : snap ∈ (if i % update_every = update_every - 1 then [s] else []) ++
          (bodyLoop sqrtF sub (i + 1)
            (if keep sub i then appendSplat sqrtF s r else s) rs).1 := hsnap
      rcases List.mem_append.mp hmem with h1 | h2
      · by_cases hcond : i % update_every = update_every - 1
        · rw [if_pos hcond] at h1
          rw [List.mem_singleton.mp h1]
          exact hc
        · rw [if_neg hcond] at h1
          exact (List.not_mem_nil snap h1).elim
      · exact ih.1 snap h2
    · exact ih.2

/-- Claim C5, corrected.  Every emitted snapshot is internally consistent
(all present vectors share the length of `means`, and the SH vector holds
`3 + 3⌊L/3⌋` values per splat), and the snapshot sizes are NON-DECREASING
across one load; they are strictly increasing when no sub-sampling stride is
set, but with a stride two consecutive snapshots can have equal sizes (see
the counterexample). -/
theorem C5_invariants {α : Type} [Field α] (sqrtF : α → α) (sub : Option ℕ)
    (element : PlyElement) (records : List (GaussianData α)) (L : ℕ)
    (hxyz : (["x", "y", "z"].any fun p => !(element.properties.contains p)) = false)
    (hlen : records.length = element.count) (hpos : 0 < element.count)
    (hL : ∀ r ∈ records, r.sh_coeffs_rest.length = L) :
    (∀ snap ∈ (processVertex sqrtF sub element records).1, Consistent L snap) ∧
    (((processVertex sqrtF sub element records).1).map Splats.num_splats).Chain' (· ≤ ·) ∧
    (sub = none →
      (((processVertex sqrtF sub element records).1).map Splats.num_splats).Chain' (· < ·)) := by
  have htake : records.take element.count = records := by
    rw [← hlen]; exact List.take_length records
  have hpos' : 0 < (records.take element.count).length := by
    rw [htake, hlen]; exact hpos
  have hL' : ∀ r ∈ records.take element.count, r.sh_coeffs_rest.length = L :=
    fun x hx => hL x (List.take_subset _ _ hx)
  have hue : 0 < update_every := by norm_num [update_every]
  have hbound : ∀ t, t < element.count / update_every →
      t * update_every + (update_every - 1) ≤ element.count := by
    intro t ht
    have h2 : (t + 1) * update_every ≤ (element.count / update_every) * update_every :=
      Nat.mul_le_mul_right update_every ht
    have h3 : (element.count / update_every) * update_every ≤ element.count :=
      Nat.div_mul_le_self _ _
    have h4 : (t + 1) * update_every = t * update_every + update_every := by ring
    omega
  refine ⟨?_, ?_, ?_⟩
  · intro snap hsnap
    rw [processVertex_eq sqrtF sub element records hxyz hpos'] at hsnap
    have hbody := bodyLoop_consistent sqrtF sub L (records.take element.count) 0
      (initVecs element.properties) hL' (initVecs_consistent L element.properties)
    rcases List.mem_append.mp hsnap with h1 | h2
    · exact hbody.1 snap h1
    · rw [List.mem_singleton.mp h2, finalSplats]
      exact hbody.2
  · rw [(processVertex_sizes sqrtF sub element records hxyz hlen hpos).1]
    refine List.Pairwise.chain' ?_
    rw [List.pairwise_append]
    refine ⟨?_, List.pairwise_singleton _ _, ?_⟩
    · refine (List.pairwise_lt_range _).map _ (fun a b hab => ?_)
      refine keptCount_mono sub 0 ?_
      have := Nat.mul_le_mul_right update_every (Nat.le_of_lt hab)
      omega
    · intro a ha b hb
      rw [List.mem_singleton.mp hb]
      obtain ⟨t, ht, rfl⟩ := List.mem_map.mp ha
      exact keptCount_mono sub 0 (hbound t (List.mem_range.mp ht))
  · rintro rfl
    rw [(processVertex_sizes sqrtF none element records hxyz hlen hpos).1]
    simp only [keptCount_none]
    refine List.Pairwise.chain' ?_
    rw [List.pairwise_append]
    refine ⟨?_, List.pairwise_singleton _ _, ?_⟩
    · refine (List.pairwise_lt_range _).map _ (fun a b hab => ?_)
      have := (Nat.mul_lt_mul_right hue).mpr hab
      omega
    · intro a ha b hb
      rw [List.mem_singleton.mp hb]
      obtain ⟨t, ht, rfl⟩ := List.mem_map.mp ha
      have := hbound t (List.mem_range.mp ht)
      have h2 : (t + 1) * update_every ≤ (element.count / update_every) * update_every :=
        Nat.mul_le_mul_right update_every (List.mem_range.mp ht)
      have h3 : (element.count / update_every) * update_every ≤ element.count :=
        Nat.div_mul_le_self _ _
      have h4 : (t + 1) * update_every = t * update_every + update_every := by ring
      omega

theorem C5_invariants_witness :
    ((0:ℕ) < 1 ∧ (∀ r ∈ [GaussianData.new (α := ℚ)], r.sh_coeffs_rest.length = 0)) ∧
    ((∀ snap ∈ (processVertex (α := ℚ) id none ⟨"vertex", 1, ["x", "y", "z"]⟩
        [GaussianData.new]).1, Consistent 0 snap) ∧
    (((processVertex (α := ℚ) id none ⟨"vertex", 1, ["x", "y", "z"]⟩
        [GaussianData.new]).1).map Splats.num_splats).Chain' (· ≤ ·) ∧
    (none = (none : Option ℕ) →
      (((processVertex (α := ℚ) id none ⟨"vertex", 1, ["x", "y", "z"]⟩
          [GaussianData.new]).1).map Splats.num_splats).Chain' (· < ·))) :=
  ⟨⟨by decide, by decide⟩,
    C5_invariants id none ⟨"vertex", 1, ["x", "y", "z"]⟩ [GaussianData.new] 0
      (by decide) (by decide) (by decide) (by decide)⟩

/-- Claim C5, counterexample to strict monotonicity as stated: with stride
25000 over 25000 well-formed records, the load emits two snapshots of sizes
1 and 1 — consecutive snapshot sizes are NOT strictly increasing. -/
theorem C5_counterexample :
    ((processVertex (α := ℚ) id (some 25000) ⟨"vertex", 25000, ["x", "y", "z"]⟩
        (List.replicate 25000 GaussianData.new)).1).map Splats.num_splats = [1, 1] ∧
    ¬ (([1, 1] : List ℕ).Chain' (· < ·)) := by
  refine ⟨?_, by simp [List.chain'_cons]⟩
  · have h := (processVertex_sizes (α := ℚ) id (some 25000)
      ⟨"vertex", 25000, ["x", "y", "z"]⟩ (List.replicate 25000 GaussianData.new) (by decide)
      (by exact List.length_replicate 25000 _) (by norm_num)).1
    rw [h]
    have h25 : (0:ℕ) < 25000 := by norm_num
    simp only [keptCount_some h25]
    decide

/-! ### Claims C2 and C10 — SH interleaving -/

/-- When the scratch vector holds exactly `3 * K` values (channel-major),
the source's interleaving agrees with the spec's coefficient-major layout. -/
theorem interleave_eq_spec {α : Type} [Field α] (sh_dc : α × α × α) (sh_rest : List α) {K : ℕ}
    (h : sh_rest.length = 3 * K) :
    interleave_coeffs sh_dc sh_rest = specInterleaved sh_dc sh_rest K := by
  have hcpc : sh_rest.length / 3 = K := by
    rw [h]; exact Nat.mul_div_cancel_left K (by norm_num)
  simp only [interleave_coeffs, specInterleaved, hcpc]
  congr 1
  rw [List.flatMap_def, List.flatMap_def]
  congr 1
  refine List.map_congr_left (fun i _ => ?_)
  show [sh_rest.getD (0 * K + i) 0, sh_rest.getD (1 * K + i) 0, sh_rest.getD (2 * K + i) 0] = _
  rw [Nat.zero_mul, Nat.one_mul, Nat.zero_add]

/-- Claim C2, confirmed.  For a payload whose records carry exactly `3 * K`
`f_rest` values in channel-major order, the final snapshot's SH array is the
concatenation, over the kept records in order, of the spec's coefficient-major
interleaving (DC triple first, then the r/g/b values of each coefficient
index `c < K` consecutively). -/
theorem C2_sh_roundtrip {α : Type} [Field α] (sqrtF : α → α) (sub : Option ℕ)
    (element : PlyElement) (records : List (GaussianData α)) {K : ℕ}
    (hxyz : (["x", "y", "z"].any fun p => !(element.properties.contains p)) = false)
    (hlen : records.length = element.count) (hpos : 0 < element.count)
    (hsh : (element.properties.contains "f_dc_0" || element.properties.contains "red") = true)
    (hK : ∀ r ∈ records, r.sh_coeffs_rest.length = 3 * K) :
    ((processVertex sqrtF sub element records).1).getLast? =
      some (finalSplats sqrtF sub element records) ∧
    (finalSplats sqrtF sub element records).sh_coeffs =
      some (((keptRecords sub 0 records).map
        (fun r => specInterleaved r.sh_dc r.sh_coeffs_rest K)).flatten) := by
  have htake : records.take element.count = records := by
    rw [← hlen]; exact List.take_length records
  have hpos' : 0 < (records.take element.count).length := by
    rw [htake, hlen]; exact hpos
  constructor
  · rw [processVertex_eq sqrtF sub element records hxyz hpos']
    exact List.getLast?_concat _
  · have hinit : (initVecs (α := α) element.properties).sh_coeffs = some [] := by
      rw [show (initVecs (α := α) element.properties).sh_coeffs =
        (if (element.properties.contains "f_dc_0" || element.properties.contains "red") = true
          then some [] else none) from rfl, if_pos hsh]
    rw [finalSplats, bodyLoop_snd, foldl_appendSplat_sh, htake, hinit, Option.map_some',
      List.nil_append]
    congr 2
    refine List.map_congr_left (fun r hr => ?_)
    exact interleave_eq_spec r.sh_dc r.sh_coeffs_rest
      (hK r (keptRecords_subset sub records 0 r hr))

theorem C2_sh_roundtrip_witness :
    (∀ r ∈ shExampleRecords, r.sh_coeffs_rest.length = 3 * 1) ∧
    (((processVertex (α := ℚ) id none shExampleElement shExampleRecords).1).getLast? =
      some (finalSplats id none shExampleElement shExampleRecords) ∧
    (finalSplats id none shExampleElement shExampleRecords).sh_coeffs =
      some (((keptRecords none 0 shExampleRecords).map
        (fun r => specInterleaved r.sh_dc r.sh_coeffs_rest 1)).flatten)) ∧
    (finalSplats id none shExampleElement shExampleRecords).sh_coeffs =
      some [10, 11, 12, 1, 2, 3, 20, 21, 22, 4, 5, 6] :=
  ⟨by decide,
    C2_sh_roundtrip id none shExampleElement shExampleRecords
      (by decide) (by decide) (by decide) (by decide) (by decide),
    by decide⟩

/-- Claim C10, confirmed.  The interleaving appends exactly `3 + 3⌊L/3⌋` SH
values for a record whose scratch vector has length `L`, and its output does
not depend on the trailing `L mod 3` scratch entries at all (replacing the
scratch vector by its first `3⌊L/3⌋` entries gives the same output), so the
highest-indexed `f_rest` values read from disk are dropped when `L` is not a
multiple of 3. -/
theorem C10_trailing_dropped {α : Type} [Field α] (sh_dc : α × α × α) (sh_rest : List α) :
    (interleave_coeffs sh_dc sh_rest).length = 3 + 3 * (sh_rest.length / 3) ∧
    interleave_coeffs sh_dc sh_rest =
      interleave_coeffs sh_dc (sh_rest.take (3 * (sh_rest.length / 3))) := by
  refine ⟨interleave_coeffs_length sh_dc sh_rest, ?_⟩
  have hmul : sh_rest.length / 3 * 3 ≤ sh_rest.length := Nat.div_mul_le_self _ _
  have htlen : (sh_rest.take (3 * (sh_rest.length / 3))).length = 3 * (sh_rest.length / 3) := by
    rw [List.length_take]; omega
  have hcpc : (sh_rest.take (3 * (sh_rest.length / 3))).length / 3 = sh_rest.length / 3 := by
    rw [htlen]; exact Nat.mul_div_cancel_left _ (by norm_num)
  simp only [interleave_coeffs, hcpc]
  congr 1
  rw [List.flatMap_def, List.flatMap_def]
  congr 1
  refine List.map_congr_left (fun i hi => ?_)
  refine List.map_congr_left (fun j hj => ?_)
  have hi' : i < sh_rest.length / 3 := List.mem_range.mp hi
  have hj' : j < 3 := List.mem_range.mp hj
  have hidx : j * (sh_rest.length / 3) + i < 3 * (sh_rest.length / 3) := by
    have : j * (sh_rest.length / 3) ≤ 2 * (sh_rest.length / 3) :=
      Nat.mul_le_mul_right _ (by omega)
    omega
  rw [List.getD_eq_getElem?_getD, List.getD_eq_getElem?_getD, List.getElem?_take,
    if_pos hidx]

/-! ### Claim C3 — header-phase SH coefficient count -/

/-- Claim C3, corrected.  The header phase computes
`n_sh_coeffs = 3 + max_f_rest_index` — WITHOUT the extra `+ 1` — where
`max_f_rest_index` is the maximum parsed index over the `f_rest_{i}` property
names (`idxs` lists the parsed indices in order); when no property name
parses as `f_rest_{i}`, the result is 3. -/
theorem C3_n_sh_coeffs (element : PlyElement) (idxs : List ℕ)
    (h : element.properties.filterMap parseFRestIdx = idxs) :
    (idxs = [] → n_sh_coeffs element = 3) ∧
    (∀ mx, idxs.max? = some mx →
      n_sh_coeffs element = 3 + mx ∧ mx ∈ idxs ∧ ∀ j ∈ idxs, j ≤ mx) := by
  constructor
  · rintro rfl
    rw [n_sh_coeffs, h]
    rfl
  · intro mx hmx
    refine ⟨?_, List.max?_mem (fun a b => max_choice a b) hmx, ?_⟩
    · rw [n_sh_coeffs, h, hmx]
      rfl
    · exact (List.max?_le_iff (fun _ _ _ => max_le_iff) hmx).mp (le_refl mx)

theorem C3_n_sh_coeffs_witness :
    ((⟨"vertex", 5, ["x", "y", "z", "f_rest_0", "f_rest_5", "f_rest_2"]⟩ :
        PlyElement).properties.filterMap parseFRestIdx = [0, 5, 2]) ∧
    (([0, 5, 2] : List ℕ) = [] →
      n_sh_coeffs ⟨"vertex", 5, ["x", "y", "z", "f_rest_0", "f_rest_5", "f_rest_2"]⟩ = 3) ∧
    (∀ mx, ([0, 5, 2] : List ℕ).max? = some mx →
      n_sh_coeffs ⟨"vertex", 5, ["x", "y", "z", "f_rest_0", "f_rest_5", "f_rest_2"]⟩ = 3 + mx ∧
      mx ∈ ([0, 5, 2] : List ℕ) ∧ ∀ j ∈ ([0, 5, 2] : List ℕ), j ≤ mx) :=
  ⟨by decide,
    C3_n_sh_coeffs ⟨"vertex", 5, ["x", "y", "z", "f_rest_0", "f_rest_5", "f_rest_2"]⟩
      [0, 5, 2] (by decide)⟩

/-- Claim C3, counterexample to the claim as stated: for a vertex element
declaring `f_rest_0` and `f_rest_1` (so `max_f_rest_index = 1`), the code
computes `n_sh_coeffs = 3 + 1 = 4`, not `3 + 1 + 1 = 5` as the claim's
formula requires. -/
theorem C3_counterexample :
    n_sh_coeffs ⟨"vertex", 1, ["x", "y", "z", "f_rest_0", "f_rest_1"]⟩ = 4 ∧
    n_sh_coeffs ⟨"vertex", 1, ["x", "y", "z", "f_rest_0", "f_rest_1"]⟩ ≠ 3 + 1 + 1 :=
  ⟨by decide, by decide⟩

/-! ### Claim C4 — the Empty failure -/

/-- Claim C4, corrected.  When the header declares a vertex element (with
`x`/`y`/`z` present) whose body yields zero records, the stream fails with
`empty` and emits nothing.  But when the header declares NO vertex element at
all, the stream completes successfully with zero snapshots and NO error —
it does not fail with `empty` as the claim asserts. -/
theorem C4_empty_behavior {α : Type} [Field α] (sqrtF : α → α) (sub : Option ℕ)
    (elems : List (PlyElement × List (GaussianData α)))
    (element : PlyElement) (records : List (GaussianData α))
    (hnov : ∀ p ∈ elems, p.1.name ≠ "vertex")
    (hxyz : (["x", "y", "z"].any fun p => !(element.properties.contains p)) = false)
    (htake : records.take element.count = []) :
    load_splat_from_ply sqrtF sub elems = ([], none) ∧
    processVertex sqrtF sub element records = ([], some LoadError.empty) := by
  constructor
  · induction elems with
    | nil => rfl
    | cons p rest ih =>
      obtain ⟨el, recs⟩ := p
      have hname : ¬ el.name = "vertex" := hnov (el, recs) (List.mem_cons_self _ _)
      show (if el.name = "vertex" then _ else load_splat_from_ply sqrtF sub rest) = ([], none)
      rw [if_neg hname]
      exact ih (fun q hq => hnov q (List.mem_cons_of_mem _ hq))
  · rw [processVertex, hxyz]
    simp only [Bool.false_eq_true, if_false, htake]
    rfl

theorem C4_empty_behavior_witness :
    ((∀ p ∈ ([(⟨"face", 3, ["x"]⟩, [])] : List (PlyElement × List (GaussianData ℚ))),
        p.1.name ≠ "vertex") ∧
      (([] : List (GaussianData ℚ)).take
        (⟨"vertex", 0, ["x", "y", "z"]⟩ : PlyElement).count = [])) ∧
    load_splat_from_ply (α := ℚ) id none [(⟨"face", 3, ["x"]⟩, [])] = ([], none) ∧
    processVertex (α := ℚ) id none ⟨"vertex", 0, ["x", "y", "z"]⟩ [] =
      ([], some LoadError.empty) :=
  ⟨⟨by decide, by decide⟩,
    C4_empty_behavior id none [(⟨"face", 3, ["x"]⟩, [])] ⟨"vertex", 0, ["x", "y", "z"]⟩ []
      (by decide) (by decide) (by decide)⟩

/-- Claim C4, counterexample to the claim as stated: a successfully parsed
header that declares no vertex element at all materializes zero splats, yet
the stream completes with no snapshots and NO error — it does not fail with
`empty`. -/
theorem C4_counterexample :
    load_splat_from_ply (α := ℚ) id none [(⟨"face", 3, ["x"]⟩, [])] = ([], none) ∧
    (none : Option LoadError) ≠ some LoadError.empty :=
  ⟨by decide, by decide⟩

/-! ### Claims C6 and C7 — kernel dispatch -/

/-- Claim C6, confirmed.  The ordered binding list submitted by `execute` is
the uniform binding (present exactly when the uniform type has nonzero size)
followed by the reads in order followed by the writes in order; its length is
`|reads| + |writes|` for a uniform-less kernel and `1 + |reads| + |writes|`
otherwise. -/
theorem C6_binding_order {β : Type} (workgroup_size : ℕ × ℕ × ℕ) (uniformsSize : ℕ)
    (uniform_data : β) (read_handles write_handles : List β) (executions : ℕ × ℕ × ℕ) :
    (execute workgroup_size uniformsSize uniform_data read_handles write_handles executions).2 =
      (if uniformsSize ≠ 0 then [uniform_data] else []) ++ read_handles ++ write_handles ∧
    (execute workgroup_size uniformsSize uniform_data read_handles write_handles
        executions).2.length =
      (if uniformsSize ≠ 0 then 1 else 0) + (read_handles.length + write_handles.length) := by
  by_cases h : uniformsSize ≠ 0 <;>
    (simp [execute, totalHandles, h, List.append_assoc]; try omega)

theorem div_ceil_eq {a b : ℕ} (hb : 0 < b) : div_ceil a b = (a + b - 1) / b := by
  rw [div_ceil]
  have hdm : b * (a / b) + a % b = a := Nat.div_add_mod a b
  have hr : a % b < b := Nat.mod_lt a hb
  by_cases h : 0 < a % b
  · rw [if_pos h]
    have hmul : b * (a / b + 1) = b * (a / b) + b := by ring
    have hx : a + b - 1 = b * (a / b + 1) + (a % b - 1) := by omega
    rw [hx, Nat.mul_add_div hb, Nat.div_eq_of_lt (by omega : a % b - 1 < b), Nat.add_zero]
  · rw [if_neg h]
    have hx : a + b - 1 = b * (a / b) + (b - 1) := by omega
    rw [hx, Nat.mul_add_div hb, Nat.div_eq_of_lt (by omega : b - 1 < b), Nat.add_zero]

theorem le_div_ceil_mul {a b : ℕ} (hb : 0 < b) : a ≤ div_ceil a b * b := by
  rw [div_ceil]
  have hdm : b * (a / b) + a % b = a := Nat.div_add_mod a b
  have hr : a % b < b := Nat.mod_lt a hb
  by_cases h : 0 < a % b
  · rw [if_pos h]
    have hmul : (a / b + 1) * b = a / b * b + b := by ring
    have hcomm : a / b * b = b * (a / b) := Nat.mul_comm _ _
    omega
  · rw [if_neg h]
    have hcomm : a / b * b = b * (a / b) := Nat.mul_comm _ _
    omega

theorem div_ceil_pred_mul_lt {a b : ℕ} (hb : 0 < b) :
    ((div_ceil a b : ℤ) - 1) * (b : ℤ) < (a : ℤ) := by
  rw [div_ceil]
  have hdm : b * (a / b) + a % b = a := Nat.div_add_mod a b
  by_cases h : 0 < a % b
  · rw [if_pos h]
    have hnat : a / b * b < a := by
      have hcomm : a / b * b = b * (a / b) := Nat.mul_comm _ _
      omega
    have hz : ((a / b : ℕ) : ℤ) * (b : ℤ) < (a : ℤ) := by exact_mod_cast hnat
    push_cast
    linarith
  · rw [if_neg h]
    rcases Nat.eq_zero_or_pos (a / b) with hd | hd
    · rw [hd]
      have hb' : (1 : ℤ) ≤ (b : ℤ) := by exact_mod_cast hb
      have ha : (0 : ℤ) ≤ (a : ℤ) := Int.natCast_nonneg a
      push_cast
      nlinarith
    · obtain ⟨e, he⟩ : ∃ e, a / b = e + 1 := ⟨a / b - 1, by omega⟩
      rw [he]
      rw [he] at hdm
      have hnat : e * b < a := by
        have h1 : e * b + b = (e + 1) * b := by ring
        have h2 : (e + 1) * b = b * (e + 1) := Nat.mul_comm _ _
        omega
      have hz : ((e : ℕ) : ℤ) * (b : ℤ) < (a : ℤ) := by exact_mod_cast hnat
      push_cast
      linarith

/-- Claim C7, confirmed.  For every `execute` call with positive workgroup
sizes, the submitted grid is the per-axis ceiling division
`(⌈Ex/Wx⌉, ⌈Ey/Wy⌉, ⌈Ez/Wz⌉)`, and each axis satisfies
`grid·W ≥ E` and `(grid − 1)·W < E` (the latter read over ℤ, so it also
holds when `E = 0` and the grid is 0). -/
theorem C7_dispatch_grid {β : Type} (workgroup_size : ℕ × ℕ × ℕ) (uniformsSize : ℕ)
    (uniform_data : β) (read_handles write_handles : List β) (executions : ℕ × ℕ × ℕ)
    (h1 : 0 < workgroup_size.1) (h2 : 0 < workgroup_size.2.1) (h3 : 0 < workgroup_size.2.2) :
    (execute workgroup_size uniformsSize uniform_data read_handles write_handles
        executions).1 =
      ((executions.1 + workgroup_size.1 - 1) / workgroup_size.1,
       (executions.2.1 + workgroup_size.2.1 - 1) / workgroup_size.2.1,
       (executions.2.2 + workgroup_size.2.2 - 1) / workgroup_size.2.2) ∧
    (executions.1 ≤ (dispatchGrid executions workgroup_size).1 * workgroup_size.1 ∧
      executions.2.1 ≤ (dispatchGrid executions workgroup_size).2.1 * workgroup_size.2.1 ∧
      executions.2.2 ≤ (dispatchGrid executions workgroup_size).2.2 * workgroup_size.2.2) ∧
    ((((dispatchGrid executions workgroup_size).1 : ℤ) - 1) * (workgroup_size.1 : ℤ) <
        (executions.1 : ℤ) ∧
      (((dispatchGrid executions workgroup_size).2.1 : ℤ) - 1) * (workgroup_size.2.1 : ℤ) <
        (executions.2.1 : ℤ) ∧
      (((dispatchGrid executions workgroup_size).2.2 : ℤ) - 1) * (workgroup_size.2.2 : ℤ) <
        (executions.2.2 : ℤ)) := by
  refine ⟨?_, ⟨?_, ?_, ?_⟩, ⟨?_, ?_, ?_⟩⟩
  · show dispatchGrid executions workgroup_size = _
    rw [dispatchGrid, div_ceil_eq h1, div_ceil_eq h2, div_ceil_eq h3]
  · exact le_div_ceil_mul h1
  · exact le_div_ceil_mul h2
  · exact le_div_ceil_mul h3
  · exact div_ceil_pred_mul_lt h1
  · exact div_ceil_pred_mul_lt h2
  · exact div_ceil_pred_mul_lt h3

theorem C7_dispatch_grid_witness :
    ((0 : ℕ) < 16 ∧ (0 : ℕ) < 1) ∧
    ((execute (β := Unit) (16, 16, 1) 0 () [] [] (1920, 1080, 1)).1 =
      ((1920 + 16 - 1) / 16, (1080 + 16 - 1) / 16, (1 + 1 - 1) / 1) ∧
    ((1920 : ℕ) ≤ (dispatchGrid (1920, 1080, 1) (16, 16, 1)).1 * 16 ∧
      (1080 : ℕ) ≤ (dispatchGrid (1920, 1080, 1) (16, 16, 1)).2.1 * 16 ∧
      (1 : ℕ) ≤ (dispatchGrid (1920, 1080, 1) (16, 16, 1)).2.2 * 1) ∧
    ((((dispatchGrid (1920, 1080, 1) (16, 16, 1)).1 : ℤ) - 1) * (16 : ℤ) < (1920 : ℤ) ∧
      (((dispatchGrid (1920, 1080, 1) (16, 16, 1)).2.1 : ℤ) - 1) * (16 : ℤ) < (1080 : ℤ) ∧
      (((dispatchGrid (1920, 1080, 1) (16, 16, 1)).2.2 : ℤ) - 1) * (1 : ℤ) < (1 : ℤ))) ∧
    dispatchGrid (1920, 1080, 1) (16, 16, 1) = (120, 68, 1) :=
  ⟨⟨by decide, by decide⟩,
    C7_dispatch_grid (16, 16, 1) 0 () [] [] (1920, 1080, 1) (by decide) (by decide) (by decide),
    by decide⟩

/-! ### Claim C9 — quaternion normalization -/

/-- For a parsed quaternion with nonzero self-dot, glam's `normalize` yields
a quaternion of self-dot exactly 1 (in the real-number model of `f32`). -/
theorem normalize_unit_dot {q : Quat4 ℝ} (hq : Quat4.dot q q ≠ 0) :
    Quat4.dot (Quat4.normalize Real.sqrt q) (Quat4.normalize Real.sqrt q) = 1 := by
  have hnn : 0 ≤ Quat4.dot q q := by
    rw [Quat4.dot]
    nlinarith [mul_self_nonneg q.w, mul_self_nonneg q.x, mul_self_nonneg q.y,
      mul_self_nonneg q.z]
  have hs : Real.sqrt (Quat4.dot q q) ^ 2 = Quat4.dot q q := Real.sq_sqrt hnn
  have hcalc : Quat4.dot (Quat4.normalize Real.sqrt q) (Quat4.normalize Real.sqrt q) =
      Quat4.dot q q / Real.sqrt (Quat4.dot q q) ^ 2 := by
    simp only [Quat4.normalize, Quat4.smul, Quat4.dot]
    ring
  rw [hcalc, hs, div_self hq]

/-- Claim C9, corrected.  When the vertex element declares the rotation
properties, the final snapshot stores exactly the glam-normalization of each
kept record's parsed quaternion; every stored quaternion whose PARSED value
is nonzero has norm exactly 1 (hence within the 1e-6 tolerance).  The
nonzero-ness proviso is necessary: an all-zero on-disk quaternion normalizes
to a non-unit value (NaN components in Rust, the zero quaternion in the real
model) — see the counterexample. -/
theorem C9_rotation_normalized (element : PlyElement) (records : List (GaussianData ℝ))
    (sub : Option ℕ) (r : GaussianData ℝ)
    (hlen : records.length = element.count)
    (hrot : element.properties.contains "rot_0" = true)
    (hr : r ∈ keptRecords sub 0 records)
    (hq : Quat4.dot r.rotation r.rotation ≠ 0) :
    (finalSplats Real.sqrt sub element records).rotation =
      some ((keptRecords sub 0 records).map (fun g => Quat4.normalize Real.sqrt g.rotation)) ∧
    Real.sqrt (Quat4.dot (Quat4.normalize Real.sqrt r.rotation)
      (Quat4.normalize Real.sqrt r.rotation)) = 1 ∧
    1 - 1 / 1000000 ≤ Real.sqrt (Quat4.dot (Quat4.normalize Real.sqrt r.rotation)
      (Quat4.normalize Real.sqrt r.rotation)) ∧
    Real.sqrt (Quat4.dot (Quat4.normalize Real.sqrt r.rotation)
      (Quat4.normalize Real.sqrt r.rotation)) ≤ 1 + 1 / 1000000 := by
  have htake : records.take element.count = records := by
    rw [← hlen]; exact List.take_length records
  have hinit : (initVecs (α := ℝ) element.properties).rotation = some [] := by
    rw [show (initVecs (α := ℝ) element.properties).rotation =
      (if element.properties.contains "rot_0" = true then some [] else none) from rfl,
      if_pos hrot]
  have h1 : (finalSplats Real.sqrt sub element records).rotation =
      some ((keptRecords sub 0 records).map (fun g => Quat4.normalize Real.sqrt g.rotation)) := by
    rw [finalSplats, bodyLoop_snd, foldl_appendSplat_rotation, htake, hinit, Option.map_some',
      List.nil_append]
  have hone : Real.sqrt (Quat4.dot (Quat4.normalize Real.sqrt r.rotation)
      (Quat4.normalize Real.sqrt r.rotation)) = 1 := by
    rw [normalize_unit_dot hq, Real.sqrt_one]
  refine ⟨h1, hone, ?_, ?_⟩ <;> rw [hone] <;> norm_num

theorem C9_rotation_normalized_witness :
    (({ GaussianData.new with rotation := (⟨2, 0, 0, 0⟩ : Quat4 ℝ) } : GaussianData ℝ) ∈
        keptRecords none 0 [{ GaussianData.new with rotation := (⟨2, 0, 0, 0⟩ : Quat4 ℝ) }] ∧
      Quat4.dot (⟨2, 0, 0, 0⟩ : Quat4 ℝ) (⟨2, 0, 0, 0⟩ : Quat4 ℝ) ≠ 0) ∧
    ((finalSplats Real.sqrt none ⟨"vertex", 1, ["x", "y", "z", "rot_0", "rot_1", "rot_2", "rot_3"]⟩
        [{ GaussianData.new with rotation := (⟨2, 0, 0, 0⟩ : Quat4 ℝ) }]).rotation =
      some ((keptRecords none 0
          [{ GaussianData.new with rotation := (⟨2, 0, 0, 0⟩ : Quat4 ℝ) }]).map
        (fun g => Quat4.normalize Real.sqrt g.rotation)) ∧
    Real.sqrt (Quat4.dot
        (Quat4.normalize Real.sqrt
          ({ GaussianData.new with rotation := (⟨2, 0, 0, 0⟩ : Quat4 ℝ) } :
            GaussianData ℝ).rotation)
        (Quat4.normalize Real.sqrt
          ({ GaussianData.new with rotation := (⟨2, 0, 0, 0⟩ : Quat4 ℝ) } :
            GaussianData ℝ).rotation)) = 1 ∧
    1 - 1 / 1000000 ≤ Real.sqrt (Quat4.dot
        (Quat4.normalize Real.sqrt
          ({ GaussianData.new with rotation := (⟨2, 0, 0, 0⟩ : Quat4 ℝ) } :
            GaussianData ℝ).rotation)
        (Quat4.normalize Real.sqrt
          ({ GaussianData.new with rotation := (⟨2, 0, 0, 0⟩ : Quat4 ℝ) } :
            GaussianData ℝ).rotation)) ∧
    Real.sqrt (Quat4.dot
        (Quat4.normalize Real.sqrt
          ({ GaussianData.new with rotation := (⟨2, 0, 0, 0⟩ : Quat4 ℝ) } :
            GaussianData ℝ).rotation)
        (Quat4.normalize Real.sqrt
          ({ GaussianData.new with rotation := (⟨2, 0, 0, 0⟩ : Quat4 ℝ) } :
            GaussianData ℝ).rotation)) ≤ 1 + 1 / 1000000) :=
  ⟨⟨by rw [keptRecords_none]; exact List.mem_singleton.mpr rfl,
      by norm_num [Quat4.dot]⟩,
    C9_rotation_normalized ⟨"vertex", 1, ["x", "y", "z", "rot_0", "rot_1", "rot_2", "rot_3"]⟩
      [{ GaussianData.new with rotation := (⟨2, 0, 0, 0⟩ : Quat4 ℝ) }] none
      { GaussianData.new with rotation := (⟨2, 0, 0, 0⟩ : Quat4 ℝ) }
      rfl (by decide)
      (by rw [keptRecords_none]; exact List.mem_singleton.mpr rfl)
      (by norm_num [Quat4.dot])⟩

/-- Claim C9, counterexample to the unconditional claim: a record whose
on-disk quaternion is all-zero is stored as the normalization of zero, which
has norm 0 — not within `[1 − 1e-6, 1 + 1e-6]`.  (Rust/glam produces NaN
components for this record; either way the stored quaternion is not unit
length.) -/
theorem C9_counterexample :
    (finalSplats Real.sqrt none ⟨"vertex", 1, ["x", "y", "z", "rot_0", "rot_1", "rot_2", "rot_3"]⟩
        [{ GaussianData.new with rotation := (⟨0, 0, 0, 0⟩ : Quat4 ℝ) }]).rotation =
      some [Quat4.normalize Real.sqrt (⟨0, 0, 0, 0⟩ : Quat4 ℝ)] ∧
    Real.sqrt (Quat4.dot (Quat4.normalize Real.sqrt (⟨0, 0, 0, 0⟩ : Quat4 ℝ))
      (Quat4.normalize Real.sqrt (⟨0, 0, 0, 0⟩ : Quat4 ℝ))) = 0 ∧
    ¬ (1 - 1 / 1000000 ≤ Real.sqrt (Quat4.dot (Quat4.normalize Real.sqrt (⟨0, 0, 0, 0⟩ : Quat4 ℝ))
      (Quat4.normalize Real.sqrt (⟨0, 0, 0, 0⟩ : Quat4 ℝ)))) := by
  have hz : Quat4.normalize Real.sqrt (⟨0, 0, 0, 0⟩ : Quat4 ℝ) = ⟨0, 0, 0, 0⟩ := by
    simp [Quat4.normalize, Quat4.smul]
  have hd : Real.sqrt (Quat4.dot (Quat4.normalize Real.sqrt (⟨0, 0, 0, 0⟩ : Quat4 ℝ))
      (Quat4.normalize Real.sqrt (⟨0, 0, 0, 0⟩ : Quat4 ℝ))) = 0 := by
    rw [hz]
    simp [Quat4.dot]
  refine ⟨?_, hd, ?_⟩
  · rw [finalSplats, bodyLoop_snd, foldl_appendSplat_rotation]
    rfl
  · rw [hd]
    norm_num

end BrushSpec
